import Mathlib

/-!
Verification of the imxrt-ccm clock-control driver.

This file gives a shallow embedding of the ARM clock retiming core
(`src/arm.rs`), the register bit-field helper (`src/register.rs`) and the
clock gate helpers (`src/gate.rs`, `src/lib.rs`) of the imxrt-ccm crate,
and proves the specified properties about them.

Machine integers (`u32`) are modelled as `Nat` with explicit reduction
modulo `2^32` wherever the Rust operation can overflow.
-/

namespace ImxrtCcm

/-- `2^32`, the modulus of `u32` arithmetic. -/
def M32 : Nat := 4294967296

/-- `u32::MAX`, also the all-ones 32-bit pattern used for `!` (bitwise not). -/
def U32MAX : Nat := 4294967295

/-- Wrapping `u32` multiplication. -/
def wmul (a b : Nat) : Nat := a * b % M32

/-- Wrapping `u32` addition. -/
def wadd (a b : Nat) : Nat := (a + b) % M32

/-- A field in a CCM register (`register.rs`, `struct Field`). -/
structure Field where
  offset : Nat
  mask : Nat
deriving DecidableEq

/-- `Field::new(offset, mask)`: the stored mask is pre-shifted. -/
def Field.new (offset mask : Nat) : Field :=
  ⟨offset, mask <<< offset⟩

/-- `Field::modify`: clear the field in `v`, and write `value` in its place.
`!self.mask` in `u32` is the 32-bit complement, i.e. xor with all-ones. -/
def Field.modify (f : Field) (v value : Nat) : Nat :=
  (v &&& (U32MAX ^^^ f.mask)) ||| ((value <<< f.offset) &&& f.mask)

/-- `Field::write_zero`: write `value`, setting all other fields to zero. -/
def Field.writeZero (f : Field) (value : Nat) : Nat :=
  (value <<< f.offset) &&& f.mask

/-- `Field::read`: read the field back out of the register value `v`. -/
def Field.read (f : Field) (v : Nat) : Nat :=
  (v &&& f.mask) >>> f.offset

/-- A field is well formed when its raw mask is `2^w - 1` for a width `w`
that fits in the 32-bit register together with the offset. -/
def Field.wf (f : Field) (w : Nat) : Prop :=
  f.mask = (2 ^ w - 1) <<< f.offset ∧ f.offset + w ≤ 32

theorem U32MAX_testBit (i : Nat) : U32MAX.testBit i = decide (i < 32) := by
  have h : U32MAX = 2 ^ 32 - 1 := by decide
  rw [h, Nat.testBit_two_pow_sub_one]

/-- Reading a well-formed field after modifying that same field returns the
value written, provided it fits in the field. -/
theorem Field.read_modify_self {f : Field} {w : Nat} (hf : f.wf w)
    {v x : Nat} (hx : x < 2 ^ w) : f.read (f.modify v x) = x := by
  obtain ⟨hm, hw⟩ := hf
  apply Nat.eq_of_testBit_eq
  intro j
  simp only [Field.read, Field.modify, hm, Nat.testBit_shiftRight,
    Nat.testBit_land, Nat.testBit_lor, Nat.testBit_xor, Nat.testBit_shiftLeft,
    Nat.testBit_two_pow_sub_one, U32MAX_testBit]
  have h1 : f.offset ≤ f.offset + j := Nat.le_add_right ..
  have h2 : f.offset + j - f.offset = j := by omega
  by_cases hj : j < w
  · have h3 : f.offset + j < 32 := by omega
    simp [h1, h2, h3, hj]
  · have hxj : x.testBit j = false := by
      refine Nat.testBit_eq_false_of_lt (Nat.lt_of_lt_of_le hx ?_)
      exact Nat.pow_le_pow_right (by norm_num) (by omega)
    simp [h1, h2, hj, hxj]

/-- Reading a well-formed field is unaffected by a modification of a field
whose mask is disjoint from it. -/
theorem Field.read_modify_other {f g : Field} {w : Nat} (hf : f.wf w)
    (hdisj : f.mask &&& g.mask = 0) (v x : Nat) :
    f.read (g.modify v x) = f.read v := by
  obtain ⟨hm, hw⟩ := hf
  apply Nat.eq_of_testBit_eq
  intro j
  simp only [Field.read, Field.modify, Nat.testBit_shiftRight,
    Nat.testBit_land, Nat.testBit_lor, Nat.testBit_xor, U32MAX_testBit]
  by_cases hjf : f.mask.testBit (f.offset + j) = true
  · have hg : g.mask.testBit (f.offset + j) = false := by
      have h0 : (f.mask &&& g.mask).testBit (f.offset + j) = false := by
        rw [hdisj]; simp
      rw [Nat.testBit_land, hjf, Bool.true_and] at h0
      exact h0
    have hlt : f.offset + j < 32 := by
      by_contra hge
      have hfalse : f.mask.testBit (f.offset + j) = false := by
        refine Nat.testBit_eq_false_of_lt ?_
        rw [hm]
        calc (2 ^ w - 1) <<< f.offset = (2 ^ w - 1) * 2 ^ f.offset := by
              rw [Nat.shiftLeft_eq]
          _ < 2 ^ w * 2 ^ f.offset := by
              have hp : 0 < 2 ^ f.offset := Nat.two_pow_pos _
              have hs : 2 ^ w - 1 < 2 ^ w := Nat.sub_lt (Nat.two_pow_pos _) one_pos
              exact (Nat.mul_lt_mul_right hp).mpr hs
          _ = 2 ^ (w + f.offset) := by rw [Nat.pow_add]
          _ ≤ 2 ^ (f.offset + j) := Nat.pow_le_pow_right (by norm_num) (by omega)
      rw [hfalse] at hjf; exact absurd hjf (by simp)
    simp [hjf, hg, hlt]
  · simp only [Bool.not_eq_true] at hjf
    simp [hjf]

/-- Reading a well-formed field after `write_zero` of that field returns the
value written, provided it fits in the field. -/
theorem Field.read_writeZero_self {f : Field} {w : Nat} (hf : f.wf w)
    {x : Nat} (hx : x < 2 ^ w) : f.read (f.writeZero x) = x := by
  obtain ⟨hm, hw⟩ := hf
  apply Nat.eq_of_testBit_eq
  intro j
  simp only [Field.read, Field.writeZero, hm, Nat.testBit_shiftRight,
    Nat.testBit_land, Nat.testBit_shiftLeft, Nat.testBit_two_pow_sub_one]
  have h1 : f.offset ≤ f.offset + j := Nat.le_add_right ..
  have h2 : f.offset + j - f.offset = j := by omega
  by_cases hj : j < w
  · simp [h1, h2, hj]
  · have hxj : x.testBit j = false := by
      refine Nat.testBit_eq_false_of_lt (Nat.lt_of_lt_of_le hx ?_)
      exact Nat.pow_le_pow_right (by norm_num) (by omega)
    simp [h1, h2, hj, hxj]

/-! ### ARM clock timings (`arm.rs`) -/

/-- ARM clock timings (`struct Timings`). All divider values are off-by-one
with respect to the hardware encoding: subtract 1 before writing. -/
structure Timings where
  pll_arm_div_sel : Nat
  div_arm : Nat
  div_ahb : Nat
  arm_hz : Nat
  div_ipg : Nat
deriving DecidableEq

/-- `compute_arm_hz`: `pll_arm_div_sel * 12_000_000 / div_arm / div_ahb`
in `u32` arithmetic (the multiplication is the only operation that could
wrap). -/
def compute_arm_hz (div_arm div_ahb pll_arm_div_sel : Nat) : Nat :=
  wmul pll_arm_div_sel 12000000 / div_arm / div_ahb

/-- The divider-search `while` loop of `Timings::target`, with an explicit
fuel argument. The loop state `(div_arm, div_ahb)` ranges over
`[1,8] × [1,5]`, so 40 units of fuel always suffice (`divSearchGo_fuel`):
the fuel-exhaustion branch is never taken from the initial state. -/
def divSearchGo (arm_hz : Nat) : Nat → Nat → Nat → Nat × Nat
  | 0, div_arm, div_ahb => (div_arm, div_ahb)
  | fuel + 1, div_arm, div_ahb =>
    if wmul (wmul arm_hz div_arm) div_ahb < 648000000 then
      if div_arm < 8 then
        divSearchGo arm_hz fuel (div_arm + 1) div_ahb
      else if div_ahb < 5 then
        divSearchGo arm_hz fuel 1 (div_ahb + 1)
      else
        (div_arm, div_ahb)
    else
      (div_arm, div_ahb)

/-- The divider-search loop of `Timings::target`, started from
`(div_arm, div_ahb) = (1, 1)`. -/
def divSearch (arm_hz : Nat) : Nat × Nat :=
  divSearchGo arm_hz 40 1 1

/-- `Timings::target`: returns a `Timings` that approximates the target
ARM clock `arm_hz`. -/
def Timings.target (arm_hz : Nat) : Timings :=
  let p := divSearch arm_hz
  let div_arm := p.1
  let div_ahb := p.2
  let pll_arm_div_sel := wadd (wmul (wmul arm_hz div_arm) div_ahb) 6000000 / 12000000
  let pll_arm_div_sel := max (min pll_arm_div_sel 108) 54
  let arm_hz := compute_arm_hz div_arm div_ahb pll_arm_div_sel
  let div_ipg := wadd arm_hz 149999999 / 150000000
  let div_ipg := min div_ipg 4
  { pll_arm_div_sel, div_arm, div_ahb, arm_hz, div_ipg }

/-- `Timings::ipg_hz`: the IPG clock frequency described by these timings. -/
def Timings.ipg_hz (t : Timings) : Nat :=
  t.arm_hz / t.div_ipg

/-! ### CCM registers and the clock switch sequencer (`arm.rs`) -/

/-- The CCM registers touched by `set_frequency`. `CCM_CDHIPR` (the
handshake status register) is polled, never written, by this module; the
busy-waits are modelled as explicit `wait` instructions in the trace. -/
structure RegState where
  caccr : Nat
  cbcdr : Nat
  cbcmr : Nat
  pllArm : Nat
deriving DecidableEq

/-- Names for the registers of `RegState`. -/
inductive Reg
  | caccr
  | cbcdr
  | cbcmr
  | pllArm
deriving DecidableEq

def RegState.get (s : RegState) : Reg → Nat
  | Reg.caccr => s.caccr
  | Reg.cbcdr => s.cbcdr
  | Reg.cbcmr => s.cbcmr
  | Reg.pllArm => s.pllArm

def RegState.update (s : RegState) : Reg → Nat → RegState
  | Reg.caccr, v => { s with caccr := v }
  | Reg.cbcdr, v => { s with cbcdr := v }
  | Reg.cbcmr, v => { s with cbcmr := v }
  | Reg.pllArm, v => { s with pllArm := v }

/-- One register operation performed by `set_frequency`. The two busy-wait
loops (`wait_for_handshake` on CCM_CDHIPR, and the PLL lock poll on
CCM_ANALOG_PLL_ARM bit 31) appear as explicit instructions so the order of
operations is part of the trace. -/
inductive Instr
  | modify (r : Reg) (f : Field) (value : Nat)
  | writeZero (r : Reg) (f : Field) (value : Nat)
  | waitHandshake
  | waitPllLock
deriving DecidableEq

/-- Execute one instruction against the register state. The waits do not
change any software-visible register field that this module later reads. -/
def Instr.exec (s : RegState) : Instr → RegState
  | Instr.modify r f value => s.update r (f.modify (s.get r) value)
  | Instr.writeZero r f value => s.update r (f.writeZero value)
  | Instr.waitHandshake => s
  | Instr.waitPllLock => s

/-- Run a straight-line instruction sequence. -/
def runProgram (s : RegState) (prog : List Instr) : RegState :=
  prog.foldl Instr.exec s

/-- `PERIPH_CLK2_PODF` field of CCM_CBCDR (`on_ahb_clk_oscillator`). -/
def PERIPH_CLK2_PODF : Field := Field.new 27 7
/-- `PERIPH_CLK2_SEL` field of CCM_CBCMR (`on_ahb_clk_oscillator`). -/
def PERIPH_CLK2_SEL : Field := Field.new 12 3
/-- `PERIPH_CLK_SEL` field of CCM_CBCDR: the main bus clock root selector.
`1` selects PERIPH_CLK2 (the oscillator path), `0` selects PRE_PERIPH_CLK
(the PLL path). -/
def PERIPH_CLK_SEL : Field := Field.new 25 1
/-- `PRE_PERIPH_CLK_SEL` field of CCM_CBCMR (`on_ahb_clk_oscillator`). -/
def PRE_PERIPH_CLK_SEL : Field := Field.new 18 3
/-- `DIV_SEL` field of CCM_ANALOG_PLL_ARM. -/
def DIV_SEL : Field := Field.new 0 127
/-- `POWERDOWN` bit of CCM_ANALOG_PLL_ARM (`restart_pll_arm`). -/
def POWERDOWN : Field := Field.new 12 1
/-- `ENABLE` bit of CCM_ANALOG_PLL_ARM (`restart_pll_arm`). -/
def ENABLE : Field := Field.new 13 1
/-- `ARM_PODF` field of CCM_CACCR. -/
def ARM_PODF : Field := Field.new 0 7
/-- `AHB_PODF` field of CCM_CBCDR. -/
def AHB_PODF : Field := Field.new 10 7
/-- `IPG_PODF` field of CCM_CBCDR. -/
def IPG_PODF : Field := Field.new 8 3

/-- The register operations of `on_ahb_clk_oscillator`, wrapped around the
operations `body` of the passed closure. -/
def onAhbClkOscillatorProgram (body : List Instr) : List Instr :=
  [Instr.modify Reg.cbcdr PERIPH_CLK2_PODF 0,
   Instr.modify Reg.cbcmr PERIPH_CLK2_SEL 1,
   Instr.waitHandshake,
   Instr.modify Reg.cbcdr PERIPH_CLK_SEL 1,
   Instr.waitHandshake]
  ++ body ++
  [Instr.modify Reg.cbcmr PRE_PERIPH_CLK_SEL 3,
   Instr.modify Reg.cbcdr PERIPH_CLK_SEL 0,
   Instr.waitHandshake]

/-- The register operations of `restart_pll_arm(div_sel)`. -/
def restartPllArmProgram (div_sel : Nat) : List Instr :=
  [Instr.writeZero Reg.pllArm POWERDOWN 1,
   Instr.writeZero Reg.pllArm DIV_SEL div_sel,
   Instr.modify Reg.pllArm ENABLE 1,
   Instr.waitPllLock]

/-- The register operations of `set_timings(timings)`. `Nat` subtraction is
already saturating, matching `saturating_sub(1)`. -/
def setTimingsProgram (t : Timings) : List Instr :=
  [Instr.modify Reg.caccr ARM_PODF (t.div_arm - 1),
   Instr.waitHandshake,
   Instr.modify Reg.cbcdr AHB_PODF (t.div_ahb - 1),
   Instr.waitHandshake,
   Instr.modify Reg.cbcdr IPG_PODF (t.div_ipg - 1)]

/-- The full register operation sequence of `set_frequency(hz)`. -/
def setFrequencyProgram (hz : Nat) : List Instr :=
  let t := Timings.target hz
  onAhbClkOscillatorProgram
    (restartPllArmProgram t.pll_arm_div_sel ++ setTimingsProgram t)

/-- `set_frequency(hz)`: runs the sequencer and returns the new register
state together with the returned `(ARMClock, IPGClock)` pair. -/
def set_frequency (hz : Nat) (s : RegState) : RegState × (Nat × Nat) :=
  let t := Timings.target hz
  (runProgram s (setFrequencyProgram hz), (t.arm_hz, t.ipg_hz))

/-- `timings_`: the ARM timings read back from the CCM registers. -/
def readTimings (s : RegState) : Timings :=
  let div_arm := ARM_PODF.read s.caccr + 1
  let div_ahb := AHB_PODF.read s.cbcdr + 1
  let div_ipg := IPG_PODF.read s.cbcdr + 1
  let pll_arm_div_sel := DIV_SEL.read s.pllArm
  let arm_hz := compute_arm_hz div_arm div_ahb pll_arm_div_sel
  { div_arm, div_ahb, pll_arm_div_sel, arm_hz, div_ipg }

/-- `frequency()`: the ARM and IPG clock frequencies read from the CCM. -/
def frequency (s : RegState) : Nat × Nat :=
  let t := readTimings s
  (t.arm_hz, t.ipg_hz)

/-! ### Clock gates (`gate.rs` and `lib.rs`) -/

/-- One step of the loop body of `set_clock_gate_`: clear the 2-bit field
of `gate` and store the low two bits of `value` there, in `u32`
arithmetic (`MASK = 0b11`). -/
def setGateBits (register : Nat) (gate : Nat) (value : Nat) : Nat :=
  (register &&& (U32MAX ^^^ (3 <<< (gate * 2)))) ||| ((3 &&& value) <<< (gate * 2))

/-- `set_clock_gate_`: read the CCGR register, update each listed gate's
2-bit field with the (masked) value, and write the register back. -/
def set_clock_gate_ (ccgr : Nat) (gates : List Nat) (value : Nat) : Nat :=
  gates.foldl (fun register gate => setGateBits register gate value) ccgr

/-- `get_clock_gate_`: extract the 2-bit field of `gate` from the CCGR
register. -/
def get_clock_gate_ (ccgr : Nat) (gate : Nat) : Nat :=
  (ccgr >>> (gate * 2)) &&& 3

/-- The tri-state clock gate setting (`enum ClockGate` in `lib.rs`, with
its `repr(u8)` discriminants `Off = 0b00`, `OnlyRun = 0b01`,
`On = 0b11`). -/
inductive ClockGate
  | off
  | onlyRun
  | on
deriving DecidableEq

/-- The `u8` encoding of a `ClockGate` (`ClockGate as u8`). -/
def ClockGate.toU8 : ClockGate → Nat
  | ClockGate.off => 0
  | ClockGate.onlyRun => 1
  | ClockGate.on => 3

/-- `ClockGate::from_u8`: decode `raw & 0b11`. The `unreachable!` panic in
the `0b10` arm is modelled as `none`. -/
def ClockGate.from_u8 (raw : Nat) : Option ClockGate :=
  if raw &&& 3 = 0 then some ClockGate.off
  else if raw &&& 3 = 1 then some ClockGate.onlyRun
  else if raw &&& 3 = 3 then some ClockGate.on
  else none

/-! ### Helper lemmas about the divider search loop -/

/-- The divider search keeps its state in `[1,8] × [1,5]`. -/
theorem divSearchGo_range (hz : Nat) :
    ∀ fuel a b, 1 ≤ a → a ≤ 8 → 1 ≤ b → b ≤ 5 →
      1 ≤ (divSearchGo hz fuel a b).1 ∧ (divSearchGo hz fuel a b).1 ≤ 8 ∧
      1 ≤ (divSearchGo hz fuel a b).2 ∧ (divSearchGo hz fuel a b).2 ≤ 5
  | 0, a, b, h1, h2, h3, h4 => by
    simpa [divSearchGo] using ⟨h1, h2, h3, h4⟩
  | fuel + 1, a, b, h1, h2, h3, h4 => by
    simp only [divSearchGo]
    split
    · split
      · exact divSearchGo_range hz fuel (a + 1) b (by omega) (by omega) h3 h4
      · split
        · exact divSearchGo_range hz fuel 1 (b + 1) (by omega) (by omega) (by omega) (by omega)
        · simpa using ⟨h1, h2, h3, h4⟩
    · simpa using ⟨h1, h2, h3, h4⟩

/-- Any fuel at least `(5 - b) * 8 + (9 - a)` produces the same search
result: the loop terminates within that many iterations. -/
theorem divSearchGo_fuel (hz : Nat) :
    ∀ fuel₁ fuel₂ a b, 1 ≤ a → a ≤ 8 → 1 ≤ b → b ≤ 5 →
      (5 - b) * 8 + (9 - a) ≤ fuel₁ → (5 - b) * 8 + (9 - a) ≤ fuel₂ →
      divSearchGo hz fuel₁ a b = divSearchGo hz fuel₂ a b
  | 0, _, a, b, h1, h2, h3, h4, hf₁, _ => by omega
  | _ + 1, 0, a, b, h1, h2, h3, h4, _, hf₂ => by omega
  | fuel₁ + 1, fuel₂ + 1, a, b, h1, h2, h3, h4, hf₁, hf₂ => by
    simp only [divSearchGo]
    split
    · split
      · exact divSearchGo_fuel hz fuel₁ fuel₂ (a + 1) b (by omega) (by omega) h3 h4
          (by omega) (by omega)
      · split
        · exact divSearchGo_fuel hz fuel₁ fuel₂ 1 (b + 1) (by omega) (by omega)
            (by omega) (by omega) (by omega) (by omega)
        · rfl
    · rfl

/-- When the target is so small that even the maximum dividers cannot reach
the 648 MHz threshold, the search runs to exhaustion and returns `(8, 5)`. -/
theorem divSearchGo_exhaust (hz : Nat) (hsmall : hz * 40 < 648000000) :
    ∀ fuel a b, 1 ≤ a → a ≤ 8 → 1 ≤ b → b ≤ 5 →
      (5 - b) * 8 + (9 - a) ≤ fuel →
      divSearchGo hz fuel a b = (8, 5)
  | 0, a, b, h1, h2, h3, h4, hf => by omega
  | fuel + 1, a, b, h1, h2, h3, h4, hf => by
    have hab : hz * a * b ≤ hz * 40 := by
      calc hz * a * b ≤ hz * 8 * 5 := by
            exact Nat.mul_le_mul (Nat.mul_le_mul_left hz h2) h4
        _ = hz * 40 := by ring
    have hm : hz * a < M32 := by
      have : hz * a ≤ hz * a * b := Nat.le_mul_of_pos_right _ (by omega)
      simp only [M32]; omega
    have hcond : wmul (wmul hz a) b < 648000000 := by
      simp only [wmul, Nat.mod_eq_of_lt hm]
      have : hz * a * b < M32 := by simp only [M32]; omega
      rw [Nat.mod_eq_of_lt this]
      omega
    simp only [divSearchGo, if_pos hcond]
    split
    · exact divSearchGo_exhaust hz hsmall fuel (a + 1) b (by omega) (by omega) h3 h4 (by omega)
    · split
      · exact divSearchGo_exhaust hz hsmall fuel 1 (b + 1) (by omega) (by omega)
          (by omega) (by omega) (by omega)
      · have : a = 8 := by omega
        have : b = 5 := by omega
        simp_all

/-- Loop postcondition: on exit, either the (wrapped) product reached the
648 MHz threshold or the dividers were exhausted at `(8, 5)`; and every
state visited earlier in the growth order (`div_arm` 1 up to 8, then
`div_ahb` stepped with `div_arm` restarted) had a product below the
threshold. -/
theorem divSearchGo_post (hz : Nat) :
    ∀ fuel a b, 1 ≤ a → a ≤ 8 → 1 ≤ b → b ≤ 5 →
      (5 - b) * 8 + (9 - a) ≤ fuel →
      (∀ a' b', 1 ≤ a' → a' ≤ 8 → 1 ≤ b' → b' ≤ 5 →
        (b' < b ∨ (b' = b ∧ a' < a)) → wmul (wmul hz a') b' < 648000000) →
      (648000000 ≤ wmul (wmul hz (divSearchGo hz fuel a b).1) (divSearchGo hz fuel a b).2
        ∨ ((divSearchGo hz fuel a b).1 = 8 ∧ (divSearchGo hz fuel a b).2 = 5)) ∧
      (∀ a' b', 1 ≤ a' → a' ≤ 8 → 1 ≤ b' → b' ≤ 5 →
        (b' < (divSearchGo hz fuel a b).2 ∨
          (b' = (divSearchGo hz fuel a b).2 ∧ a' < (divSearchGo hz fuel a b).1)) →
        wmul (wmul hz a') b' < 648000000)
  | 0, a, b, h1, h2, h3, h4, hf, _ => by omega
  | fuel + 1, a, b, h1, h2, h3, h4, hf, H => by
    simp only [divSearchGo]
    split
    · next hcond =>
      split
      · next ha =>
        refine divSearchGo_post hz fuel (a + 1) b (by omega) (by omega) h3 h4 (by omega) ?_
        intro a' b' ha'1 ha'2 hb'1 hb'2 hlt
        rcases hlt with hb | ⟨hbeq, halt⟩
        · exact H a' b' ha'1 ha'2 hb'1 hb'2 (Or.inl hb)
        · rcases Nat.lt_or_ge a' a with haa | haa
          · exact H a' b' ha'1 ha'2 hb'1 hb'2 (Or.inr ⟨hbeq, haa⟩)
          · have : a' = a := by omega
            subst this; subst hbeq; exact hcond
      · next ha =>
        split
        · next hb =>
          refine divSearchGo_post hz fuel 1 (b + 1) (by omega) (by omega)
            (by omega) (by omega) (by omega) ?_
          intro a' b' ha'1 ha'2 hb'1 hb'2 hlt
          rcases hlt with hbb | ⟨hbeq, halt⟩
          · rcases Nat.lt_or_ge b' b with h | h
            · exact H a' b' ha'1 ha'2 hb'1 hb'2 (Or.inl h)
            · have hbb' : b' = b := by omega
              subst hbb'
              rcases Nat.lt_or_ge a' a with h' | h'
              · exact H a' b' ha'1 ha'2 hb'1 hb'2 (Or.inr ⟨rfl, h'⟩)
              · have : a' = a := by omega
                subst this; exact hcond
          · omega
        · constructor
          · refine Or.inr ⟨?_, ?_⟩ <;> simp <;> omega
          · intro a' b' ha'1 ha'2 hb'1 hb'2 hlt
            simp only at hlt
            exact H a' b' ha'1 ha'2 hb'1 hb'2 hlt
    · next hcond =>
      constructor
      · refine Or.inl ?_
        simpa using Nat.le_of_not_lt hcond
      · intro a' b' ha'1 ha'2 hb'1 hb'2 hlt
        simp only at hlt
        exact H a' b' ha'1 ha'2 hb'1 hb'2 hlt

/-! ### Helper lemmas about `Timings.target` -/

/-- The fields of `Timings.target`, written out. -/
theorem target_fields (hz : Nat) :
    (Timings.target hz).div_arm = (divSearch hz).1 ∧
    (Timings.target hz).div_ahb = (divSearch hz).2 ∧
    (Timings.target hz).pll_arm_div_sel =
      max (min (wadd (wmul (wmul hz (divSearch hz).1) (divSearch hz).2) 6000000
        / 12000000) 108) 54 ∧
    (Timings.target hz).arm_hz =
      compute_arm_hz (divSearch hz).1 (divSearch hz).2
        (Timings.target hz).pll_arm_div_sel ∧
    (Timings.target hz).div_ipg =
      min (wadd (Timings.target hz).arm_hz 149999999 / 150000000) 4 :=
  ⟨rfl, rfl, rfl, rfl, rfl⟩

/-- `Timings.target` keeps every field within its hardware range, and the
resulting ARM frequency lies between the platform extremes. -/
theorem target_ranges (hz : Nat) :
    54 ≤ (Timings.target hz).pll_arm_div_sel ∧
    (Timings.target hz).pll_arm_div_sel ≤ 108 ∧
    1 ≤ (Timings.target hz).div_arm ∧ (Timings.target hz).div_arm ≤ 8 ∧
    1 ≤ (Timings.target hz).div_ahb ∧ (Timings.target hz).div_ahb ≤ 5 ∧
    1 ≤ (Timings.target hz).div_ipg ∧ (Timings.target hz).div_ipg ≤ 4 ∧
    16200000 ≤ (Timings.target hz).arm_hz ∧
    (Timings.target hz).arm_hz ≤ 1296000000 := by
  obtain ⟨hda, hdb, hpll, harm, hipg⟩ := target_fields hz
  obtain ⟨ha1, ha2, hb1, hb2⟩ :=
    divSearchGo_range hz 40 1 1 (by norm_num) (by norm_num) (by norm_num) (by norm_num)
  rw [show divSearchGo hz 40 1 1 = divSearch hz from rfl] at ha1 ha2 hb1 hb2
  have hp1 : 54 ≤ (Timings.target hz).pll_arm_div_sel := by
    rw [hpll]; exact Nat.le_max_right _ 54
  have hp2 : (Timings.target hz).pll_arm_div_sel ≤ 108 := by
    rw [hpll]
    exact Nat.max_le.mpr ⟨Nat.min_le_right _ 108, by norm_num⟩
  have hmul : wmul (Timings.target hz).pll_arm_div_sel 12000000 =
      (Timings.target hz).pll_arm_div_sel * 12000000 := by
    apply Nat.mod_eq_of_lt
    have : (Timings.target hz).pll_arm_div_sel * 12000000 ≤ 108 * 12000000 :=
      Nat.mul_le_mul_right _ hp2
    simp only [M32]; omega
  have harm1 : 16200000 ≤ (Timings.target hz).arm_hz := by
    rw [harm, ← hda, ← hdb]
    simp only [compute_arm_hz, hmul]
    have h648 : 648000000 ≤ (Timings.target hz).pll_arm_div_sel * 12000000 := by
      calc 648000000 = 54 * 12000000 := by norm_num
        _ ≤ _ := Nat.mul_le_mul_right _ hp1
    have step1 : 81000000 ≤ (Timings.target hz).pll_arm_div_sel * 12000000
        / (Timings.target hz).div_arm := by
      calc 81000000 = 648000000 / 8 := by norm_num
        _ ≤ (Timings.target hz).pll_arm_div_sel * 12000000 / 8 :=
          Nat.div_le_div_right h648
        _ ≤ _ := by
          apply Nat.div_le_div_left
          · rw [hda]; exact ha2
          · rw [hda]; exact ha1
    calc 16200000 = 81000000 / 5 := by norm_num
      _ ≤ (Timings.target hz).pll_arm_div_sel * 12000000
          / (Timings.target hz).div_arm / 5 := Nat.div_le_div_right step1
      _ ≤ _ := by
        apply Nat.div_le_div_left
        · rw [hdb]; exact hb2
        · rw [hdb]; exact hb1
  have harm2 : (Timings.target hz).arm_hz ≤ 1296000000 := by
    rw [harm]
    simp only [compute_arm_hz, hmul]
    calc (Timings.target hz).pll_arm_div_sel * 12000000 / (divSearch hz).1
          / (divSearch hz).2
        ≤ (Timings.target hz).pll_arm_div_sel * 12000000 / (divSearch hz).1 :=
          Nat.div_le_self ..
      _ ≤ (Timings.target hz).pll_arm_div_sel * 12000000 := Nat.div_le_self ..
      _ ≤ 108 * 12000000 := Nat.mul_le_mul_right _ hp2
      _ ≤ 1296000000 := by norm_num
  have hipg1 : 1 ≤ (Timings.target hz).div_ipg := by
    rw [hipg]
    refine Nat.le_min.mpr ⟨?_, by norm_num⟩
    have hnowrap : wadd (Timings.target hz).arm_hz 149999999 =
        (Timings.target hz).arm_hz + 149999999 := by
      apply Nat.mod_eq_of_lt
      simp only [M32]; omega
    rw [hnowrap]
    rw [Nat.le_div_iff_mul_le (by norm_num : 0 < 150000000)]
    omega
  have hipg2 : (Timings.target hz).div_ipg ≤ 4 := by
    rw [hipg]; exact Nat.min_le_right _ 4
  refine ⟨hp1, hp2, ?_, ?_, ?_, ?_, hipg1, hipg2, harm1, harm2⟩
  · rw [hda]; exact ha1
  · rw [hda]; exact ha2
  · rw [hdb]; exact hb1
  · rw [hdb]; exact hb2

/-! ### Claim theorems -/

/-- C3: for every `target_hz` in `[0, u32::MAX]`, the `Timings` value
returned by `Timings::target` satisfies `pll_arm_div_sel ∈ [54,108]`,
`div_arm ∈ [1,8]`, `div_ahb ∈ [1,5]` and `div_ipg ∈ [1,4]`; no field is
ever outside its hardware-imposed range. -/
theorem c3_range_invariant (hz : Nat) (hhz : hz ≤ U32MAX) :
    54 ≤ (Timings.target hz).pll_arm_div_sel ∧
    (Timings.target hz).pll_arm_div_sel ≤ 108 ∧
    1 ≤ (Timings.target hz).div_arm ∧ (Timings.target hz).div_arm ≤ 8 ∧
    1 ≤ (Timings.target hz).div_ahb ∧ (Timings.target hz).div_ahb ≤ 5 ∧
    1 ≤ (Timings.target hz).div_ipg ∧ (Timings.target hz).div_ipg ≤ 4 := by
  obtain ⟨h1, h2, h3, h4, h5, h6, h7, h8, _, _⟩ := target_ranges hz
  exact ⟨h1, h2, h3, h4, h5, h6, h7, h8⟩

theorem c3_range_invariant_witness :
    600000000 ≤ U32MAX ∧
    (54 ≤ (Timings.target 600000000).pll_arm_div_sel ∧
     (Timings.target 600000000).pll_arm_div_sel ≤ 108 ∧
     1 ≤ (Timings.target 600000000).div_arm ∧
     (Timings.target 600000000).div_arm ≤ 8 ∧
     1 ≤ (Timings.target 600000000).div_ahb ∧
     (Timings.target 600000000).div_ahb ≤ 5 ∧
     1 ≤ (Timings.target 600000000).div_ipg ∧
     (Timings.target 600000000).div_ipg ≤ 4) :=
  ⟨by decide, c3_range_invariant 600000000 (by decide)⟩

/-- C4: for every `target_hz`, the `Timings` value returned by
`Timings::target` satisfies the defining formula: `arm_hz` equals
`pll_arm_div_sel * 12_000_000 / div_arm / div_ahb` (equivalently
`24_000_000 * pll_arm_div_sel / (2 * div_arm * div_ahb)`, the 24 MHz
reference with the 12 MHz doubling convention, in integer arithmetic), and
the derived IPG frequency `ipg_hz()` equals `arm_hz / div_ipg`. -/
theorem c4_defining_formula (hz : Nat) (hhz : hz ≤ U32MAX) :
    (Timings.target hz).arm_hz =
      (Timings.target hz).pll_arm_div_sel * 12000000
        / (Timings.target hz).div_arm / (Timings.target hz).div_ahb ∧
    (Timings.target hz).arm_hz =
      24000000 * (Timings.target hz).pll_arm_div_sel
        / (2 * ((Timings.target hz).div_arm * (Timings.target hz).div_ahb)) ∧
    (Timings.target hz).ipg_hz = (Timings.target hz).arm_hz / (Timings.target hz).div_ipg := by
  obtain ⟨hda, hdb, _, harm, _⟩ := target_fields hz
  obtain ⟨_, hp2, _, _, _, _, _, _, _, _⟩ := target_ranges hz
  have hmul : wmul (Timings.target hz).pll_arm_div_sel 12000000 =
      (Timings.target hz).pll_arm_div_sel * 12000000 := by
    apply Nat.mod_eq_of_lt
    have : (Timings.target hz).pll_arm_div_sel * 12000000 ≤ 108 * 12000000 :=
      Nat.mul_le_mul_right _ hp2
    simp only [M32]; omega
  have hfirst : (Timings.target hz).arm_hz =
      (Timings.target hz).pll_arm_div_sel * 12000000
        / (Timings.target hz).div_arm / (Timings.target hz).div_ahb := by
    rw [harm, ← hda, ← hdb]
    simp only [compute_arm_hz, hmul]
  refine ⟨hfirst, ?_, rfl⟩
  rw [hfirst, Nat.div_div_eq_div_mul]
  have h24 : 24000000 * (Timings.target hz).pll_arm_div_sel =
      2 * ((Timings.target hz).pll_arm_div_sel * 12000000) := by ring
  rw [h24, Nat.mul_div_mul_left _ _ (by norm_num : 0 < 2)]

theorem c4_defining_formula_witness :
    600000000 ≤ U32MAX ∧
    ((Timings.target 600000000).arm_hz =
      (Timings.target 600000000).pll_arm_div_sel * 12000000
        / (Timings.target 600000000).div_arm / (Timings.target 600000000).div_ahb ∧
    (Timings.target 600000000).arm_hz =
      24000000 * (Timings.target 600000000).pll_arm_div_sel
        / (2 * ((Timings.target 600000000).div_arm * (Timings.target 600000000).div_ahb)) ∧
    (Timings.target 600000000).ipg_hz =
      (Timings.target 600000000).arm_hz / (Timings.target 600000000).div_ipg) :=
  ⟨by decide, c4_defining_formula 600000000 (by decide)⟩

/-- C7: `Timings::target 0` — and every sufficiently small target — drives
the dividers to their maxima (`div_arm = 8`, `div_ahb = 5`) and the
multiplier to its floor 54, producing the platform's minimum achievable
frequency `arm_hz = 54 * 12_000_000 / 8 / 5 = 16_200_000` with
`div_ipg = 1`, and never causes a division by zero: the dividers are
nonzero. -/
theorem c7_small_targets (hz : Nat) (hhz : hz ≤ 16199999) :
    (Timings.target hz).pll_arm_div_sel = 54 ∧
    (Timings.target hz).div_arm = 8 ∧
    (Timings.target hz).div_ahb = 5 ∧
    (Timings.target hz).arm_hz = 16200000 ∧
    (Timings.target hz).div_ipg = 1 ∧
    (Timings.target hz).ipg_hz = 16200000 ∧
    (Timings.target hz).div_arm ≠ 0 ∧ (Timings.target hz).div_ahb ≠ 0 ∧
    (Timings.target hz).div_ipg ≠ 0 := by
  have hsearch : divSearch hz = (8, 5) := by
    apply divSearchGo_exhaust hz (by omega) 40 1 1 (by norm_num) (by norm_num)
      (by norm_num) (by norm_num) (by norm_num)
  obtain ⟨hda, hdb, hpll, harm, hipg⟩ := target_fields hz
  rw [hsearch] at hda hdb hpll harm
  simp only at hda hdb hpll harm
  have hw8 : wmul hz 8 = hz * 8 := by
    apply Nat.mod_eq_of_lt; simp only [M32]; omega
  have hw40 : wmul (hz * 8) 5 = hz * 40 := by
    simp only [wmul]
    rw [show hz * 8 * 5 = hz * 40 from by ring]
    apply Nat.mod_eq_of_lt; simp only [M32]; omega
  have hw46 : wadd (hz * 40) 6000000 = hz * 40 + 6000000 := by
    apply Nat.mod_eq_of_lt; simp only [M32]; omega
  rw [hw8, hw40, hw46] at hpll
  have hp0 : (hz * 40 + 6000000) / 12000000 ≤ 54 := by
    have : (hz * 40 + 6000000) / 12000000 < 55 := by
      rw [Nat.div_lt_iff_lt_mul (by norm_num : 0 < 12000000)]
      omega
    omega
  have hpll54 : (Timings.target hz).pll_arm_div_sel = 54 := by
    rw [hpll, Nat.min_eq_left (by omega), Nat.max_eq_right hp0]
  have harm16 : (Timings.target hz).arm_hz = 16200000 := by
    rw [harm, hpll54]
    decide
  have hipg1 : (Timings.target hz).div_ipg = 1 := by
    rw [hipg, harm16]
    decide
  have hipghz : (Timings.target hz).ipg_hz = 16200000 := by
    simp only [Timings.ipg_hz, harm16, hipg1]
  exact ⟨hpll54, hda, hdb, harm16, hipg1, hipghz, by omega, by omega, by omega⟩

theorem c7_small_targets_witness :
    (Timings.target 0).pll_arm_div_sel = 54 ∧
    (Timings.target 0).div_arm = 8 ∧
    (Timings.target 0).div_ahb = 5 ∧
    (Timings.target 0).arm_hz = 16200000 ∧
    (Timings.target 0).div_ipg = 1 ∧
    (Timings.target 0).ipg_hz = 16200000 ∧
    (Timings.target 0).div_arm ≠ 0 ∧ (Timings.target 0).div_ahb ≠ 0 ∧
    (Timings.target 0).div_ipg ≠ 0 :=
  c7_small_targets 0 (by decide)

/-- C8: `Timings::target 600_000_000` yields `arm_hz = 600_000_000` and
`ipg_hz = 150_000_000` with the multiplier in `[54,108]`, and
`Timings::target 600_000_100` (100 Hz above that exactly achievable value)
still yields `arm_hz = 600_000_000`: the rounding snaps to the nearest
achievable frequency. -/
theorem c8_boundary_targets :
    (Timings.target 600000000).arm_hz = 600000000 ∧
    (Timings.target 600000000).ipg_hz = 150000000 ∧
    54 ≤ (Timings.target 600000000).pll_arm_div_sel ∧
    (Timings.target 600000000).pll_arm_div_sel ≤ 108 ∧
    (Timings.target 600000100).arm_hz = 600000000 := by
  decide

/-- C9: `Timings::target` is total. The divider-search `while` loop
terminates for every `target_hz`: 40 iterations always suffice (any fuel of
at least 40 computes the same result as `divSearch`), because each
iteration that continues moves the pair `(div_ahb, div_arm)` strictly
upward in lexicographic order within its bounded range. -/
theorem c9_total (hz : Nat) (hhz : hz ≤ U32MAX) :
    (∀ fuel, 40 ≤ fuel → divSearchGo hz fuel 1 1 = divSearch hz) ∧
    (∀ a b, 1 ≤ a → a ≤ 8 → 1 ≤ b → b ≤ 5 →
      wmul (wmul hz a) b < 648000000 → ¬(a = 8 ∧ b = 5) →
      (b < (if a < 8 then (a + 1, b) else (1, b + 1)).2 ∨
        (b = (if a < 8 then (a + 1, b) else (1, b + 1)).2 ∧
          a < (if a < 8 then (a + 1, b) else (1, b + 1)).1))) := by
  constructor
  · intro fuel hfuel
    exact divSearchGo_fuel hz fuel 40 1 1 (by norm_num) (by norm_num) (by norm_num)
      (by norm_num) (by omega) (by norm_num)
  · intro a b h1 h2 h3 h4 _ hne
    by_cases ha : a < 8
    · simp [ha]
    · simp only [ha, if_false]
      omega

theorem c9_total_witness :
    600000000 ≤ U32MAX ∧ divSearchGo 600000000 41 1 1 = divSearch 600000000 :=
  ⟨by decide, (c9_total 600000000 (by decide)).1 41 (by decide)⟩

/-- If the threshold is already met, the search loop stops immediately. -/
theorem divSearchGo_stop (hz fuel a b : Nat)
    (h : 648000000 ≤ wmul (wmul hz a) b) :
    divSearchGo hz (fuel + 1) a b = (a, b) := by
  simp only [divSearchGo]
  rw [if_neg (by omega)]

/-- C5 counterexample: `u32::MAX` is at or above the platform's maximum
achievable frequency (1_296_000_000), yet `Timings::target u32::MAX`
returns the floor multiplier 54 — not the claimed clamp to 108 — and the
minimum-threshold frequency 648 MHz rather than the maximum: the wrapping
addition `arm_hz * div_arm * div_ahb + 6_000_000` overflows. -/
theorem c5_counterexample :
    1296000000 ≤ 4294967295 ∧ 4294967295 ≤ U32MAX ∧
    (Timings.target 4294967295).pll_arm_div_sel = 54 ∧
    (Timings.target 4294967295).pll_arm_div_sel ≠ 108 ∧
    (Timings.target 4294967295).arm_hz = 648000000 ∧
    (Timings.target 4294967295).arm_hz ≠ 1296000000 := by
  decide

/-- C5 amended: for every target from the platform maximum 1_296_000_000 up
to `u32::MAX - 6_000_000` the multiplier clamps to 108 and the platform's
maximum achievable frequency 1_296_000_000 is returned, silently capping
rather than erroring; for the remaining targets (above
`2^32 - 6_000_000 - 1`) the wrapping 32-bit addition of the rounding bias
sends the multiplier to the floor 54 instead, returning 648 MHz. -/
theorem c5_amended_clamp :
    (∀ hz, 1296000000 ≤ hz → hz ≤ 4288967295 →
      (Timings.target hz).pll_arm_div_sel = 108 ∧
      (Timings.target hz).arm_hz = 1296000000 ∧
      (Timings.target hz).div_arm = 1 ∧ (Timings.target hz).div_ahb = 1) ∧
    (∀ hz, 4288967296 ≤ hz → hz ≤ 4294967295 →
      (Timings.target hz).pll_arm_div_sel = 54 ∧
      (Timings.target hz).arm_hz = 648000000) := by
  have hsearch : ∀ hz : Nat, 648000000 ≤ hz → hz ≤ 4294967295 → divSearch hz = (1, 1) := by
    intro hz h1 h2
    have hid : wmul (wmul hz 1) 1 = hz := by
      simp only [wmul, Nat.mul_one, M32]
      omega
    have := divSearchGo_stop hz 39 1 1 (by rw [hid]; omega)
    simpa [divSearch] using this
  constructor
  · intro hz h1 h2
    obtain ⟨hda, hdb, hpll, harm, _⟩ := target_fields hz
    rw [hsearch hz (by omega) (by omega)] at hda hdb hpll harm
    simp only at hda hdb hpll harm
    have hid : wmul (wmul hz 1) 1 = hz := by
      simp only [wmul, Nat.mul_one, M32]
      omega
    have hadd : wadd hz 6000000 = hz + 6000000 := by
      apply Nat.mod_eq_of_lt; simp only [M32]; omega
    rw [hid, hadd] at hpll
    have h108 : 108 ≤ (hz + 6000000) / 12000000 := by
      rw [Nat.le_div_iff_mul_le (by norm_num : 0 < 12000000)]
      omega
    have hpll108 : (Timings.target hz).pll_arm_div_sel = 108 := by
      rw [hpll, Nat.min_eq_right h108, Nat.max_eq_left (by norm_num)]
    refine ⟨hpll108, ?_, hda, hdb⟩
    rw [harm, hpll108]
    decide
  · intro hz h1 h2
    obtain ⟨_, _, hpll, harm, _⟩ := target_fields hz
    rw [hsearch hz (by omega) (by omega)] at hpll harm
    simp only at hpll harm
    have hid : wmul (wmul hz 1) 1 = hz := by
      simp only [wmul, Nat.mul_one, M32]
      omega
    have hadd : wadd hz 6000000 = hz + 6000000 - 4294967296 := by
      simp only [wadd, M32]
      omega
    rw [hid, hadd] at hpll
    have h0 : (hz + 6000000 - 4294967296) / 12000000 = 0 :=
      Nat.div_eq_of_lt (by omega)
    have hpll54 : (Timings.target hz).pll_arm_div_sel = 54 := by
      rw [hpll, h0, Nat.min_eq_left (by norm_num), Nat.max_eq_right (by norm_num)]
    refine ⟨hpll54, ?_⟩
    rw [harm, hpll54]
    decide

theorem c5_amended_clamp_witness :
    ((Timings.target 1296000000).pll_arm_div_sel = 108 ∧
      (Timings.target 1296000000).arm_hz = 1296000000) ∧
    ((Timings.target 4294967295).pll_arm_div_sel = 54 ∧
      (Timings.target 4294967295).arm_hz = 648000000) :=
  ⟨⟨(c5_amended_clamp.1 1296000000 (by decide) (by decide)).1,
    (c5_amended_clamp.1 1296000000 (by decide) (by decide)).2.1⟩,
   c5_amended_clamp.2 4294967295 (by decide) (by decide)⟩

/-- C6: when the divider-search loop exits, its postcondition holds: either
the (wrapping `u32`) product `target_hz * div_arm * div_ahb` reached
648_000_000, or the dividers were exhausted at the maxima
`(div_arm, div_ahb) = (8, 5)` and the loop proceeded anyway — never an
error; and the growth order is as specified: every divider pair visited
earlier (all pairs below the result in the order `div_arm` 1 up to 8, then
`div_ahb` stepped with `div_arm` restarted at 1) left the product below the
threshold. -/
theorem c6_loop_postcondition (hz : Nat) (hhz : hz ≤ U32MAX) :
    (648000000 ≤ wmul (wmul hz (divSearch hz).1) (divSearch hz).2 ∨
      ((divSearch hz).1 = 8 ∧ (divSearch hz).2 = 5)) ∧
    (∀ a' b', 1 ≤ a' → a' ≤ 8 → 1 ≤ b' → b' ≤ 5 →
      (b' < (divSearch hz).2 ∨ (b' = (divSearch hz).2 ∧ a' < (divSearch hz).1)) →
      wmul (wmul hz a') b' < 648000000) := by
  have h := divSearchGo_post hz 40 1 1 (by norm_num) (by norm_num) (by norm_num)
    (by norm_num) (by norm_num) ?_
  · exact h
  · intro a' b' h1 h2 h3 h4 hlt
    omega

theorem c6_loop_postcondition_witness :
    600000000 ≤ U32MAX ∧
    (648000000 ≤ wmul (wmul 600000000 (divSearch 600000000).1) (divSearch 600000000).2 ∨
      ((divSearch 600000000).1 = 8 ∧ (divSearch 600000000).2 = 5)) ∧
    (∀ a' b', 1 ≤ a' → a' ≤ 8 → 1 ≤ b' → b' ≤ 5 →
      (b' < (divSearch 600000000).2 ∨
        (b' = (divSearch 600000000).2 ∧ a' < (divSearch 600000000).1)) →
      wmul (wmul 600000000 a') b' < 648000000) :=
  ⟨by decide, c6_loop_postcondition 600000000 (by decide)⟩

/-- Writing a 2-bit gate value (already masked to two bits) and reading the
same gate back returns the value, for any gate index inside the 32-bit
register. -/
theorem getGate_setGate_self (ccgr gate value : Nat) (hg : gate ≤ 15)
    (hv : value < 4) :
    get_clock_gate_ (setGateBits ccgr gate value) gate = value := by
  apply Nat.eq_of_testBit_eq
  intro j
  simp only [get_clock_gate_, setGateBits, Nat.testBit_land, Nat.testBit_lor,
    Nat.testBit_xor, Nat.testBit_shiftRight, Nat.testBit_shiftLeft,
    U32MAX_testBit, show (3 : Nat) = 2 ^ 2 - 1 from rfl,
    Nat.testBit_two_pow_sub_one]
  have h1 : gate * 2 ≤ gate * 2 + j := Nat.le_add_right ..
  have h2 : gate * 2 + j - gate * 2 = j := by omega
  by_cases hj : j < 2
  · have h3 : gate * 2 + j < 32 := by omega
    simp [h1, h2, h3, hj]
  · have hvj : value.testBit j = false := by
      refine Nat.testBit_eq_false_of_lt (Nat.lt_of_lt_of_le hv ?_)
      calc (4 : Nat) = 2 ^ 2 := by norm_num
        _ ≤ 2 ^ j := Nat.pow_le_pow_right (by norm_num) (by omega)
    simp [h1, h2, hj, hvj]

/-- C10: the tri-state clock-gate decoder is partial at the public
interface. `ClockGate::from_u8` maps `0b00`, `0b01` and `0b11` to `Off`,
`OnlyRun` and `On`, but panics (`unreachable!`, modelled as `none`) when
the masked raw value is `0b10`; the raw gate setter `set_clock_gate_`
masks its value with `0b11` and happily stores `0b10` into a gate's 2-bit
field, so a subsequent gate read on that gate feeds `0b10` to `from_u8`,
which panics instead of returning a value. -/
theorem c10_gate_decoder_panics :
    (∀ ccgr gate, gate ≤ 15 →
      get_clock_gate_ (set_clock_gate_ ccgr [gate] 2) gate = 2 ∧
      ClockGate.from_u8 (get_clock_gate_ (set_clock_gate_ ccgr [gate] 2) gate) = none) ∧
    ClockGate.from_u8 ClockGate.off.toU8 = some ClockGate.off ∧
    ClockGate.from_u8 ClockGate.onlyRun.toU8 = some ClockGate.onlyRun ∧
    ClockGate.from_u8 ClockGate.on.toU8 = some ClockGate.on ∧
    (∀ raw, raw &&& 3 = 2 → ClockGate.from_u8 raw = none) := by
  have hfold : ∀ ccgr gate : Nat,
      set_clock_gate_ ccgr [gate] 2 = setGateBits ccgr gate 2 := by
    intro ccgr gate
    simp [set_clock_gate_]
  refine ⟨?_, by decide, by decide, by decide, ?_⟩
  · intro ccgr gate hg
    have h := getGate_setGate_self ccgr gate 2 hg (by norm_num)
    rw [hfold]
    refine ⟨h, ?_⟩
    rw [h]
    decide
  · intro raw h
    simp only [ClockGate.from_u8, h]
    norm_num

theorem c10_gate_decoder_panics_witness :
    get_clock_gate_ (set_clock_gate_ 0 [3] 2) 3 = 2 ∧
    ClockGate.from_u8 (get_clock_gate_ (set_clock_gate_ 0 [3] 2) 3) = none ∧
    ClockGate.from_u8 2 = none :=
  ⟨(c10_gate_decoder_panics.1 0 3 (by decide)).1,
   (c10_gate_decoder_panics.1 0 3 (by decide)).2,
   c10_gate_decoder_panics.2.2.2.2 2 (by decide)⟩

/-! ### Well-formedness of the concrete register fields -/

theorem PERIPH_CLK2_PODF_wf : PERIPH_CLK2_PODF.wf 3 := ⟨by decide, by decide⟩

theorem PERIPH_CLK2_SEL_wf : PERIPH_CLK2_SEL.wf 2 := ⟨by decide, by decide⟩

theorem PERIPH_CLK_SEL_wf : PERIPH_CLK_SEL.wf 1 := ⟨by decide, by decide⟩

theorem PRE_PERIPH_CLK_SEL_wf : PRE_PERIPH_CLK_SEL.wf 2 := ⟨by decide, by decide⟩

theorem DIV_SEL_wf : DIV_SEL.wf 7 := ⟨by decide, by decide⟩

theorem POWERDOWN_wf : POWERDOWN.wf 1 := ⟨by decide, by decide⟩

theorem ENABLE_wf : ENABLE.wf 1 := ⟨by decide, by decide⟩

theorem ARM_PODF_wf : ARM_PODF.wf 3 := ⟨by decide, by decide⟩

theorem AHB_PODF_wf : AHB_PODF.wf 3 := ⟨by decide, by decide⟩

theorem IPG_PODF_wf : IPG_PODF.wf 2 := ⟨by decide, by decide⟩

/-- Which instructions count as "divider or PLL writes" for the ordering
claim: any write to the PLL control register, and the ARM, AHB and IPG
divider field writes. (The auxiliary-path setup writes and the mux
switches themselves are the protocol, not the guarded writes.) -/
def Instr.isPllOrCoreDividerWrite : Instr → Bool
  | Instr.modify r f _ => r == Reg.pllArm || f == ARM_PODF || f == AHB_PODF || f == IPG_PODF
  | Instr.writeZero r _ _ => r == Reg.pllArm
  | Instr.waitHandshake => false
  | Instr.waitPllLock => false

/-- C1: during every call to `set_frequency` the register operations occur
in the strict order of the glitchless-switch protocol: the auxiliary
peripheral clock path is set to the oscillator with divider 1 and the bus
clock root is switched to that path (with handshake waits on the status
register), then the PLL is powered down, reprogrammed with the new
multiplier, re-enabled and its lock awaited, then the ARM divider is
written (handshake wait), the AHB divider is written (handshake wait), and
the IPG divider is written with no handshake wait, and only after all of
that is the bus clock root switched back to the PLL-derived source,
followed by a final handshake wait. In particular (second conjunct), at
every divider or PLL write the bus clock root selector reads 1 (the
oscillator path), never 0 (the PLL path). -/
theorem c1_apply_order (hz : Nat) (s : RegState) :
    setFrequencyProgram hz =
      [Instr.modify Reg.cbcdr PERIPH_CLK2_PODF 0,
       Instr.modify Reg.cbcmr PERIPH_CLK2_SEL 1,
       Instr.waitHandshake,
       Instr.modify Reg.cbcdr PERIPH_CLK_SEL 1,
       Instr.waitHandshake,
       Instr.writeZero Reg.pllArm POWERDOWN 1,
       Instr.writeZero Reg.pllArm DIV_SEL (Timings.target hz).pll_arm_div_sel,
       Instr.modify Reg.pllArm ENABLE 1,
       Instr.waitPllLock,
       Instr.modify Reg.caccr ARM_PODF ((Timings.target hz).div_arm - 1),
       Instr.waitHandshake,
       Instr.modify Reg.cbcdr AHB_PODF ((Timings.target hz).div_ahb - 1),
       Instr.waitHandshake,
       Instr.modify Reg.cbcdr IPG_PODF ((Timings.target hz).div_ipg - 1),
       Instr.modify Reg.cbcmr PRE_PERIPH_CLK_SEL 3,
       Instr.modify Reg.cbcdr PERIPH_CLK_SEL 0,
       Instr.waitHandshake] ∧
    ∀ i : Nat,
      ((setFrequencyProgram hz).getD i Instr.waitHandshake).isPllOrCoreDividerWrite = true →
      PERIPH_CLK_SEL.read (runProgram s ((setFrequencyProgram hz).take i)).cbcdr = 1 := by
  refine ⟨rfl, ?_⟩
  have hsel : ∀ v : Nat,
      PERIPH_CLK_SEL.read (PERIPH_CLK_SEL.modify v 1) = 1 := fun v =>
    Field.read_modify_self PERIPH_CLK_SEL_wf (by norm_num)
  intro i h
  rcases i with _|_|_|_|_|_|_|_|_|_|_|_|_|_|_|_|_|i
  · exact Bool.noConfusion h
  · exact Bool.noConfusion h
  · exact Bool.noConfusion h
  · exact Bool.noConfusion h
  · exact Bool.noConfusion h
  · exact hsel _
  · exact hsel _
  · exact hsel _
  · exact Bool.noConfusion h
  · exact hsel _
  · exact Bool.noConfusion h
  · exact hsel _
  · exact Bool.noConfusion h
  · show PERIPH_CLK_SEL.read
      (AHB_PODF.modify
        (PERIPH_CLK_SEL.modify (PERIPH_CLK2_PODF.modify s.cbcdr 0) 1)
        ((Timings.target hz).div_ahb - 1)) = 1
    rw [Field.read_modify_other PERIPH_CLK_SEL_wf (by decide)]
    exact hsel _
  · exact Bool.noConfusion h
  · exact Bool.noConfusion h
  · exact Bool.noConfusion h
  · exact Bool.noConfusion h

theorem c1_apply_order_witness :
    PERIPH_CLK_SEL.read
      (runProgram ⟨0, 0, 0, 0⟩ ((setFrequencyProgram 600000000).take 9)).cbcdr = 1 :=
  (c1_apply_order 600000000 ⟨0, 0, 0, 0⟩).2 9 rfl

/-- The register state after running the `set_frequency` operation
sequence for an arbitrary timings value. -/
theorem runProgram_setFrequency (s : RegState) (t : Timings) :
    runProgram s (onAhbClkOscillatorProgram
        (restartPllArmProgram t.pll_arm_div_sel ++ setTimingsProgram t)) =
      { caccr := ARM_PODF.modify s.caccr (t.div_arm - 1),
        cbcdr := PERIPH_CLK_SEL.modify
          (IPG_PODF.modify
            (AHB_PODF.modify
              (PERIPH_CLK_SEL.modify (PERIPH_CLK2_PODF.modify s.cbcdr 0) 1)
              (t.div_ahb - 1))
            (t.div_ipg - 1)) 0,
        cbcmr := PRE_PERIPH_CLK_SEL.modify (PERIPH_CLK2_SEL.modify s.cbcmr 1) 3,
        pllArm := ENABLE.modify (DIV_SEL.writeZero t.pll_arm_div_sel) 1 } := rfl

/-- Reading the timings back after applying them: for any in-range timings
value, `frequency` recomputes the pair from the committed register state. -/
theorem frequency_after_apply (s : RegState) (t : Timings)
    (ha1 : 1 ≤ t.div_arm) (ha2 : t.div_arm ≤ 8)
    (hb1 : 1 ≤ t.div_ahb) (hb2 : t.div_ahb ≤ 5)
    (hi1 : 1 ≤ t.div_ipg) (hi2 : t.div_ipg ≤ 4)
    (hp : t.pll_arm_div_sel < 128) :
    frequency (runProgram s (onAhbClkOscillatorProgram
        (restartPllArmProgram t.pll_arm_div_sel ++ setTimingsProgram t))) =
      (compute_arm_hz t.div_arm t.div_ahb t.pll_arm_div_sel,
       compute_arm_hz t.div_arm t.div_ahb t.pll_arm_div_sel / t.div_ipg) := by
  rw [runProgram_setFrequency]
  have eARM : ARM_PODF.read (ARM_PODF.modify s.caccr (t.div_arm - 1)) + 1 =
      t.div_arm := by
    rw [Field.read_modify_self ARM_PODF_wf (show t.div_arm - 1 < 2 ^ 3 by omega)]
    omega
  have eAHB : ∀ v : Nat, AHB_PODF.read
      (PERIPH_CLK_SEL.modify
        (IPG_PODF.modify (AHB_PODF.modify v (t.div_ahb - 1)) (t.div_ipg - 1)) 0)
      + 1 = t.div_ahb := by
    intro v
    rw [Field.read_modify_other AHB_PODF_wf (by decide),
      Field.read_modify_other AHB_PODF_wf (by decide),
      Field.read_modify_self AHB_PODF_wf (show t.div_ahb - 1 < 2 ^ 3 by omega)]
    omega
  have eIPG : ∀ v : Nat, IPG_PODF.read
      (PERIPH_CLK_SEL.modify (IPG_PODF.modify v (t.div_ipg - 1)) 0) + 1 =
      t.div_ipg := by
    intro v
    rw [Field.read_modify_other IPG_PODF_wf (by decide),
      Field.read_modify_self IPG_PODF_wf (show t.div_ipg - 1 < 2 ^ 2 by omega)]
    omega
  have eDIV : DIV_SEL.read
      (ENABLE.modify (DIV_SEL.writeZero t.pll_arm_div_sel) 1) =
      t.pll_arm_div_sel := by
    rw [Field.read_modify_other DIV_SEL_wf (by decide),
      Field.read_writeZero_self DIV_SEL_wf (show t.pll_arm_div_sel < 2 ^ 7 by omega)]
  simp only [frequency, readTimings, Timings.ipg_hz]
  rw [eARM, eAHB, eIPG, eDIV]

/-- C2: for every `target_hz`, after `set_frequency target_hz` returns the
pair `(cpu_hz, ipg_hz)`, a subsequent call to `frequency()` — which reads
the multiplier and the off-by-one-encoded ARM, AHB and IPG divider fields
back from the registers and reconstructs the frequencies with the same
formula — returns exactly the pair that `set_frequency` returned, from any
starting register state. -/
theorem c2_round_trip (hz : Nat) (hhz : hz ≤ U32MAX) (s : RegState) :
    frequency (set_frequency hz s).1 = (set_frequency hz s).2 := by
  obtain ⟨_, hp2, ha1, ha2, hb1, hb2, hi1, hi2, _, _⟩ := target_ranges hz
  obtain ⟨hda, hdb, _, harm, _⟩ := target_fields hz
  have h1 : (set_frequency hz s).1 =
      runProgram s (onAhbClkOscillatorProgram
        (restartPllArmProgram (Timings.target hz).pll_arm_div_sel
          ++ setTimingsProgram (Timings.target hz))) := rfl
  have h2 : (set_frequency hz s).2 =
      ((Timings.target hz).arm_hz, (Timings.target hz).ipg_hz) := rfl
  rw [h1, h2, frequency_after_apply s (Timings.target hz) ha1 ha2 hb1 hb2 hi1 hi2
    (by omega)]
  have harm' : compute_arm_hz (Timings.target hz).div_arm (Timings.target hz).div_ahb
      (Timings.target hz).pll_arm_div_sel = (Timings.target hz).arm_hz := by
    rw [hda, hdb]
    exact harm.symm
  rw [harm']
  rfl

theorem c2_round_trip_witness :
    600000000 ≤ U32MAX ∧
    frequency (set_frequency 600000000 ⟨0, 0, 0, 0⟩).1 =
      (set_frequency 600000000 ⟨0, 0, 0, 0⟩).2 :=
  ⟨by decide, c2_round_trip 600000000 (by decide) ⟨0, 0, 0, 0⟩⟩

end ImxrtCcm
